import Mathlib

/-!
Verification development for the group_rag_assistant repository.

The definitions below are a shallow embedding of the Python sources
(`app/server.py`, `app/rag/query.py`, `app/rag/ingest.py`, `app/llm.py`).
Python strings are modelled as Lean `String`s whose operations are written
over the underlying `List Char` (Python slicing, `lower()`, `strip()` and
single-character `replace` act on code-point sequences, which `List Char`
models exactly).  The in-memory session store (`_SESSION_TURNS`, a dict from
session id to a `deque(maxlen=80)`) is modelled as an association list in
insertion order; the external capabilities (vector index retrieval, chat
generation) are modelled as an explicit oracle, and the calls issued to them
are recorded as an effect trace.
-/

namespace GRA

/-- Python `s[:n]` on a string: take the first `n` code points. -/
def pyTake (s : String) (n : Nat) : String :=
  ⟨s.data.take n⟩

/-- Python `s.lower()` (ASCII-relevant part): lower-case every code point. -/
def pyLower (s : String) : String :=
  ⟨s.data.map Char.toLower⟩

/-- Python `s.strip()`: remove whitespace from both ends. -/
def pyStrip (s : String) : String :=
  ⟨(((s.data.dropWhile Char.isWhitespace).reverse.dropWhile Char.isWhitespace).reverse)⟩

/-- Python `s.replace("\n", " ")`: the single-character replacement used in
`format_sources`. -/
def replaceNewlines (s : String) : String :=
  ⟨s.data.map fun c => if c = '\n' then ' ' else c⟩

/-- Slicing loop of `_chunk_text` (server.py): successive slices
`s[i : i + size]` for `i = 0, size, 2*size, ...`, with stride `k + 1`.
The stride is passed as `k + 1` so that it is positive by construction
(`_chunk_text` is only ever invoked with the positive size 140). -/
def chunkSlices (k : Nat) : List Char → List (List Char)
  | [] => []
  | a :: as => List.take (k + 1) (a :: as) :: chunkSlices k (as.drop k)
termination_by l => l.length
decreasing_by
  simp only [List.length_drop, List.length_cons]
  omega

/-- Embedding of `_chunk_text(s, size)` (server.py, lines 81-84) for a
positive `size`: the empty string yields no slices, otherwise the fixed-stride
slices of the string in order. -/
def chunkText (s : String) (size : Nat) : List String :=
  (chunkSlices (size - 1) s.data).map fun l => ⟨l⟩

/-- Lengths of the slices produced by `chunkSlices`, as a function of the
input length only (every slice boundary is determined by length and stride). -/
def chunkLens (k : Nat) : Nat → List Nat
  | 0 => []
  | n + 1 => min (k + 1) (n + 1) :: chunkLens k (n - k)
termination_by n => n
decreasing_by
  omega

/-- One conversational turn, as stored in `_SESSION_TURNS` (server.py). -/
structure Turn where
  q : String
  a : String
deriving DecidableEq

/-- The session store `_SESSION_TURNS : Dict[str, Deque[Turn]]`, modelled as
an association list in dict insertion order. -/
abbrev Store := List (String × List Turn)

/-- Dictionary lookup in the session store. -/
def lookupTurns : Store → String → Option (List Turn)
  | [], _ => none
  | (key, v) :: rest, sid => if key = sid then some v else lookupTurns rest sid

/-- In-place replacement of the turn sequence bound to `sid` (the Python code
mutates the deque object referenced from the dict). -/
def storeSet : Store → String → List Turn → Store
  | [], _, _ => []
  | (key, v) :: rest, sid, h =>
    if key = sid then (key, h) :: storeSet rest sid h
    else (key, v) :: storeSet rest sid h

/-- The hard cap `_MAX_TURNS_PER_SESSION = 80` (server.py, line 32). -/
def MAX_TURNS_PER_SESSION : Nat := 80

/-- Embedding of `_get_history` (server.py, lines 52-56): lazily creates an
empty turn sequence for an unseen session id, then returns the store together
with the session's sequence. -/
def getHistory (st : Store) (sid : String) : Store × List Turn :=
  match lookupTurns st sid with
  | some h => (st, h)
  | none => (st ++ [(sid, [])], [])

/-- Embedding of `_clamp_int` (server.py, lines 48-49). -/
def clampInt (x lo hi : Int) : Int :=
  max lo (min hi x)

/-- Appending to a `deque(maxlen=80)`: the new element goes to the back and
the front is discarded once the capacity is exceeded. -/
def dequeAppend (h : List Turn) (t : Turn) : List Turn :=
  (h ++ [t]).drop ((h ++ [t]).length - MAX_TURNS_PER_SESSION)

/-- Embedding of `_store_turn` (server.py, lines 75-78): fetch (lazily
creating) the session's history, then append the new turn to it. -/
def appendTurn (st : Store) (sid q a : String) : Store :=
  let gh := getHistory st sid
  storeSet gh.1 sid (dequeAppend gh.2 ⟨q, a⟩)

/-- The constant `DEFAULT_CONTEXT_TURNS = 10` (server.py, line 31). -/
def DEFAULT_CONTEXT_TURNS : Int := 10

/-- Embedding of `_build_context` (server.py, lines 59-72).  Returns the
store after the call (the call can lazily create an entry through
`_get_history`) together with the formatted context string. -/
def buildContext (st : Store) (sid : String) (depth : Int) : Store × String :=
  let d := clampInt depth 0 10
  if d ≤ 0 then (st, "")
  else
    let gh := getHistory st sid
    if gh.2 = [] then (gh.1, "")
    else
      let turns := gh.2.drop (gh.2.length - d.toNat)
      (gh.1,
        String.intercalate "\n\n"
          (turns.map fun t => "User: " ++ t.q ++ "\nAssistant: " ++ t.a))

/-- A retrieved chunk as consumed by `format_sources` (query.py): the
`source` and `page` metadata entries (absent keys modelled as `none`) and the
page content. -/
structure Doc where
  source : Option String
  page : Option Int
  content : String
deriving DecidableEq

/-- Cleaned snippet text of `format_sources`: newlines replaced by spaces,
then stripped. -/
def cleanSnippet (content : String) : String :=
  pyStrip (replaceNewlines content)

/-- Snippet construction of `format_sources` (query.py, lines 20-22):
truncate to `maxSnippet` code points and append an ellipsis exactly when the
cleaned text is longer than `maxSnippet`. -/
def snippetOf (content : String) (maxSnippet : Nat) : String :=
  let s := cleanSnippet content
  if maxSnippet < s.length then pyTake s maxSnippet ++ "…" else s

/-- Deduplication key of `format_sources` (query.py, lines 24-28):
`f"{src}:{int(page)}"` when a page is present, else `src` alone, where `src`
defaults to `"unknown"` when no source metadata is present. -/
def sourceKey (d : Doc) : String :=
  let src := d.source.getD "unknown"
  match d.page with
  | some p => src ++ ":" ++ toString p
  | none => src

/-- Citation line of `format_sources` (query.py, lines 24-29): source
identifier, 1-based page number when present, and the snippet. -/
def sourceLine (d : Doc) (maxSnippet : Nat) : String :=
  let src := d.source.getD "unknown"
  let snippet := snippetOf d.content maxSnippet
  match d.page with
  | some p => "- " ++ src ++ " (p." ++ toString (p + 1) ++ "): " ++ snippet
  | none => "- " ++ src ++ ": " ++ snippet

/-- Selection loop of `format_sources` (query.py, lines 16-34): keep a chunk
exactly when its key has not been seen yet, in first-seen order. -/
def selectSources : List Doc → List String → List Doc
  | [], _ => []
  | d :: rest, seen =>
    if sourceKey d ∈ seen then selectSources rest seen
    else d :: selectSources rest (sourceKey d :: seen)

/-- Embedding of `format_sources` (query.py, lines 12-36). -/
def formatSources (docs : List Doc) (maxSnippet : Nat) : String :=
  String.intercalate "\n" ((selectSources docs []).map fun d => sourceLine d maxSnippet)

/-- Metadata of a loaded document at ingestion time, restricted to the
candidate source keys consulted by `build_index` (ingest.py, lines 38-45).
An absent key is `none`; a present-but-empty value is `some ""`. -/
structure DocMeta where
  source : Option String
  file_path : Option String
  path : Option String
  filename : Option String
deriving DecidableEq

/-- Python `a or b` on optional strings: `None` and the empty string are
falsy. -/
def pyOr (a b : Option String) : Option String :=
  match a with
  | some s => if s = "" then b else some s
  | none => b

/-- Source normalization of `build_index` (ingest.py, lines 38-45): pick the
first truthy candidate among `source`, `file_path`, `path`, `filename` and
store it under `source`; when every candidate is falsy the metadata is left
unchanged. -/
def normalizeSource (m : DocMeta) : DocMeta :=
  match pyOr m.source (pyOr m.file_path (pyOr m.path m.filename)) with
  | some s => { m with source := some s }
  | none => m

/-- Scope from the segments of the corpus-relative path (ingest.py, lines
48-58): `internal` or `public` when the first segment lower-cases to that
literal, else `unknown`. -/
def scopeFromParts (parts : List String) : String :=
  let top := parts.headD ""
  if pyLower top = "internal" then "internal"
  else if pyLower top = "public" then "public"
  else "unknown"

/-- Scope tagging of `build_index`: `none` models a path-resolution failure
(the `except` branch), which leaves the scope at its initial `"unknown"`. -/
def scopeOf : Option (List String) → String
  | none => "unknown"
  | some parts => scopeFromParts parts

/-- Splitting a relative path string into segments at `/`, modelling
`Path(...).parts` for the plain relative paths of the spec examples. -/
def splitSlashAux : List Char → List Char → List String
  | [], acc => [⟨acc.reverse⟩]
  | c :: cs, acc =>
    if c = '/' then (⟨acc.reverse⟩ : String) :: splitSlashAux cs []
    else splitSlashAux cs (c :: acc)

/-- Path segments of a relative path string. -/
def splitSlash (s : String) : List String :=
  splitSlashAux s.data []

/-- Scope of a successfully resolved corpus-relative path. -/
def scopePath (p : String) : String :=
  scopeOf (some (splitSlash p))

/-- Record of one call issued to an external capability. -/
inductive Effect where
  | retrievalCall (query : String)
  | generationCall
deriving DecidableEq

/-- Result of `ask` (query.py): the answer text and the formatted sources. -/
structure AskOut where
  answer : String
  sources : String
deriving DecidableEq

/-- The external capabilities: vector-index retrieval and chat generation
(the latter fallible), parameterized so that theorems quantify over their
behaviour. -/
structure Oracle where
  retrieve : String → Nat → List Doc
  generate : String → String → String → Except String String

/-- System hint for the `thesis` agent (query.py, lines 40-43), also the
fallback of `SYSTEM_HINT.get`. -/
def thesisHint : String :=
  "Use ONLY the provided context. If context is insufficient, output [MISSING INFO] and list exactly what is missing. Do not invent citations or data."

/-- The `SYSTEM_HINT` dictionary (query.py, lines 39-52). -/
def SYSTEM_HINT (agent : String) : Option String :=
  if agent = "thesis" then some thesisHint
  else if agent = "reviewer" then
    some "Use ONLY the provided context/text. Be strict and specific. Do not invent facts or citations."
  else if agent = "python" then
    some "Return runnable Python code only. Use the provided context when relevant. If you must assume something, write it as a Python comment starting with: # ASSUMPTION:"
  else none

/-- The agents `get_chat` (llm.py) dispatches on; any other identifier makes
it raise `ValueError`. -/
def knownAgent (agent : String) : Bool :=
  agent == "thesis" || agent == "python" || agent == "reviewer"

/-- Embedding of `ask` (query.py, lines 55-91).  Returns the trace of
external calls together with the outcome.  Retrieval happens first; the agent
dispatch of `get_chat` happens after retrieval, so an unknown agent fails
with the retrieval call already issued; a generation failure is propagated. -/
def askM (o : Oracle) (agent question : String) (k : Nat) :
    List Effect × Except String AskOut :=
  let docs := o.retrieve question k
  let context := String.intercalate "\n\n" (docs.map Doc.content)
  let sys := (SYSTEM_HINT agent).getD thesisHint
  let prompt := "Context:\n" ++ context ++ "\n\nUser request:\n" ++ question ++ "\n"
  if knownAgent agent then
    match o.generate agent sys prompt with
    | Except.ok ans =>
      ([Effect.retrievalCall question, Effect.generationCall],
        Except.ok ⟨ans, formatSources docs 220⟩)
    | Except.error e =>
      ([Effect.retrievalCall question, Effect.generationCall], Except.error e)
  else
    ([Effect.retrievalCall question], Except.error ("Unknown agent: " ++ agent))

/-- The wire request shape of both endpoints (server.py, `AskRequest`). -/
structure AskRequest where
  agent : String
  question : String
  k : Nat
  session_id : Option String

/-- One NDJSON event of the streaming endpoint. -/
inductive Event where
  | delta (text : String)
  | done (sources : String)
  | error (msg : String)
deriving DecidableEq

/-- The client-error detail for an invalid agent (both endpoints). -/
def agentErrMsg : String := "agent must be thesis/python/reviewer"

/-- The failure message returned when the persisted index is missing or
empty (both endpoints). -/
def indexNotBuiltMsg : String :=
  "Vector index not found. Run: python main.py ingest (from project root), then reload the page."

/-- The framing instruction prepended to the question when conversational
context exists (server.py, lines 962-968 and 1005-1011). -/
def framedQuestion (ctx question : String) : String :=
  "You are continuing an ongoing conversation. Use the context below to stay consistent.\n\n=== Conversation context (most recent last) ===\n"
    ++ ctx ++ "\n=== End context ===\n\nUser: " ++ question

/-- Context augmentation shared by both endpoints: when a session id is
supplied, build the context block and frame the question with it when it is
non-empty. -/
def contextQuestion (st : Store) (req : AskRequest) : Store × String :=
  match req.session_id with
  | none => (st, req.question)
  | some sid =>
    let bc := buildContext st sid DEFAULT_CONTEXT_TURNS
    if bc.2 = "" then (bc.1, req.question)
    else (bc.1, framedQuestion bc.2 req.question)

/-- The JSON body of the non-streaming endpoint. -/
inductive ApiResult where
  | ok (answer sources : String)
  | err (msg : String)
deriving DecidableEq

/-- Embedding of `api_ask` (server.py, lines 943-977): agent check first,
then index precondition, then context augmentation, the `ask` pipeline, and
on success the session-memory update.  Returns the response, the resulting
store and the external-call trace. -/
def api_ask (o : Oracle) (st : Store) (indexReady : Bool) (req : AskRequest) :
    ApiResult × Store × List Effect :=
  if !knownAgent req.agent then (ApiResult.err agentErrMsg, st, [])
  else if !indexReady then (ApiResult.err indexNotBuiltMsg, st, [])
  else
    let cq := contextQuestion st req
    match askM o req.agent cq.2 req.k with
    | (effs, Except.error e) => (ApiResult.err e, cq.1, effs)
    | (effs, Except.ok out) =>
      let st2 := match req.session_id with
        | some sid => appendTurn cq.1 sid req.question out.answer
        | none => cq.1
      (ApiResult.ok out.answer out.sources, st2, effs)

/-- Event sequence produced by the generator `gen` (server.py, lines
1013-1029) from the pipeline outcome: on success the 140-character delta
slices of the answer followed by one `done` event; on failure a single
`error` event. -/
def streamEvents (res : Except String AskOut) : List Event :=
  match res with
  | Except.error e => [Event.error e]
  | Except.ok out => (chunkText out.answer 140).map Event.delta ++ [Event.done out.sources]

/-- Embedding of `api_ask_stream` (server.py, lines 980-1031).  An invalid
agent is rejected with an HTTP error before any stream exists (the `Except`
error); a missing index yields a single-error stream; otherwise the pipeline
runs, the session update happens on success, and the events of `gen` are
emitted. -/
def api_ask_stream (o : Oracle) (st : Store) (indexReady : Bool) (req : AskRequest) :
    Except String (List Event) × Store × List Effect :=
  if !knownAgent req.agent then (Except.error agentErrMsg, st, [])
  else if !indexReady then (Except.ok [Event.error indexNotBuiltMsg], st, [])
  else
    let cq := contextQuestion st req
    match askM o req.agent cq.2 req.k with
    | (effs, Except.error e) => (Except.ok (streamEvents (Except.error e)), cq.1, effs)
    | (effs, Except.ok out) =>
      let st2 := match req.session_id with
        | some sid => appendTurn cq.1 sid req.question out.answer
        | none => cq.1
      (Except.ok (streamEvents (Except.ok out)), st2, effs)

/-- A sequence of `_store_turn` operations (session id, question, answer)
applied in order. -/
def applyOps (st : Store) (ops : List (String × String × String)) : Store :=
  ops.foldl (fun s oper => appendTurn s oper.1 oper.2.1 oper.2.2) st

/-- Appending a list of turns to one session, in order. -/
def appendAll (st : Store) (sid : String) (ts : List Turn) : Store :=
  ts.foldl (fun s t => appendTurn s sid t.q t.a) st

/-- The delta payloads of an event sequence, in order. -/
def deltaTexts (evs : List Event) : List String :=
  evs.filterMap fun e => match e with | Event.delta t => some t | _ => none

/-- Recognizer for `done` events. -/
def isDone : Event → Bool
  | Event.done _ => true
  | _ => false

/-- Recognizer for `error` events. -/
def isErrorEvent : Event → Bool
  | Event.error _ => true
  | _ => false

/-- Joining the slices produced by `chunkSlices` restores the input. -/
theorem chunkSlices_join (k : Nat) (l : List Char) : (chunkSlices k l).flatten = l := by
  induction l using chunkSlices.induct k with
  | case1 => simp [chunkSlices]
  | case2 a as ih =>
    rw [chunkSlices]
    simp only [List.flatten_cons, ih, List.take_succ_cons, List.cons_append,
      List.take_append_drop]

/-- The slice lengths of `chunkSlices` are a function of the input length. -/
theorem chunkSlices_lengths (k : Nat) (l : List Char) :
    (chunkSlices k l).map List.length = chunkLens k l.length := by
  induction l using chunkSlices.induct k with
  | case1 =>
    rw [show (([] : List Char).length = 0) from rfl, chunkLens]
    simp [chunkSlices]
  | case2 a as ih =>
    rw [chunkSlices]
    simp only [List.map_cons, ih, List.length_drop, List.length_take, List.length_cons]
    rw [chunkLens]

/-- Folding string append over packed character lists concatenates them. -/
theorem strFoldAppend_mk (ls : List (List Char)) (acc : List Char) :
    List.foldl (· ++ ·) (String.mk acc) (ls.map fun l => (⟨l⟩ : String)) = ⟨acc ++ ls.flatten⟩ := by
  induction ls generalizing acc with
  | nil => simp
  | cons l ls ih =>
    simp only [List.map_cons, List.foldl_cons]
    rw [show (String.mk acc ++ (⟨l⟩ : String)) = ⟨acc ++ l⟩ from rfl, ih]
    simp

/-- String join of packed character lists is the packed list join. -/
theorem stringJoin_mk (ls : List (List Char)) :
    String.join (ls.map fun l => (⟨l⟩ : String)) = ⟨ls.flatten⟩ := by
  rw [show String.join (ls.map fun l => (⟨l⟩ : String))
        = List.foldl (· ++ ·) (String.mk []) (ls.map fun l => (⟨l⟩ : String)) from rfl,
    strFoldAppend_mk]
  rfl

/-- Concatenating the slices of `chunkText` restores the whole string. -/
theorem chunkText_join (s : String) (size : Nat) :
    String.join (chunkText s size) = s := by
  unfold chunkText
  rw [stringJoin_mk, chunkSlices_join]

/-- The slice lengths of `chunkText` depend only on the string length and the
stride. -/
theorem chunkText_lengths (s : String) (size : Nat) :
    (chunkText s size).map String.length = chunkLens (size - 1) s.length := by
  unfold chunkText
  rw [List.map_map]
  rw [show (String.length ∘ fun l => (⟨l⟩ : String)) = List.length from rfl,
    chunkSlices_lengths]
  rfl

/-- Evaluation of the slice-length recurrence at length 305, stride 140. -/
theorem chunkLens_305 : chunkLens 139 305 = [140, 140, 25] := by
  rw [show (305 : Nat) = 304 + 1 from rfl, chunkLens]
  rw [show (304 - 139 : Nat) = 164 + 1 from rfl, chunkLens]
  rw [show (164 - 139 : Nat) = 24 + 1 from rfl, chunkLens]
  rw [show (24 - 139 : Nat) = 0 from rfl, chunkLens]
  norm_num

/-- The delta payloads of a successful stream are exactly the slices of the
answer. -/
theorem deltaTexts_ok (out : AskOut) :
    deltaTexts (streamEvents (Except.ok out)) = chunkText out.answer 140 := by
  have key : ∀ l : List String,
      List.filterMap (fun e => match e with | Event.delta t => some t | _ => none)
        (l.map Event.delta) = l := by
    intro l
    induction l with
    | nil => rfl
    | cons x xs ih => simpa [List.filterMap_cons] using ih
  simp only [deltaTexts, streamEvents, List.filterMap_append, key]
  simp [List.filterMap_cons]

/-- A successful stream carries exactly one `done` event and no `error`
event. -/
theorem streamEvents_ok_counts (out : AskOut) :
    (streamEvents (Except.ok out)).countP isDone = 1
    ∧ (streamEvents (Except.ok out)).countP isErrorEvent = 0 := by
  constructor <;>
    simp [streamEvents, List.countP_append, List.countP_map, Function.comp,
      isDone, isErrorEvent, List.countP_cons, List.countP_eq_zero]

/-- A successful stream terminates with the `done` event. -/
theorem streamEvents_ok_last (out : AskOut) :
    (streamEvents (Except.ok out)).getLast? = some (Event.done out.sources) := by
  simp [streamEvents]

/--
C2. For every answer string, the streaming emitter produces the delta
payloads as consecutive fixed-stride 140-character slices of the answer in
original order, so the concatenation of all delta payloads equals the answer
exactly; the slice boundaries are determined by the answer length alone, and
an answer of length 305 yields exactly 3 delta events of lengths 140, 140,
25, followed by exactly one terminal `done` event carrying the source
listing.
-/
theorem c2_stream_chunks (s : String) (out : AskOut) :
    String.join (chunkText s 140) = s
    ∧ (chunkText s 140).map String.length = chunkLens 139 s.length
    ∧ (s.length = 305 → (chunkText s 140).map String.length = [140, 140, 25])
    ∧ (s.length = 305 → (chunkText s 140).length = 3)
    ∧ deltaTexts (streamEvents (Except.ok out)) = chunkText out.answer 140
    ∧ String.join (deltaTexts (streamEvents (Except.ok out))) = out.answer
    ∧ (streamEvents (Except.ok out)).countP isDone = 1
    ∧ (streamEvents (Except.ok out)).getLast? = some (Event.done out.sources) := by
  have hlens : (chunkText s 140).map String.length = chunkLens 139 s.length :=
    chunkText_lengths s 140
  have h305 : s.length = 305 → (chunkText s 140).map String.length = [140, 140, 25] := by
    intro h
    rw [hlens, h, chunkLens_305]
  refine ⟨chunkText_join s 140, hlens, h305, ?_, deltaTexts_ok out, ?_, ?_, ?_⟩
  · intro h
    have := h305 h
    have hlen := congrArg List.length this
    simpa using hlen
  · rw [deltaTexts_ok out, chunkText_join]
  · exact (streamEvents_ok_counts out).1
  · exact streamEvents_ok_last out

/-- Witness for C2 at a concrete 305-character answer. -/
theorem c2_stream_chunks_witness :
    (chunkText (String.mk (List.replicate 305 'a')) 140).map String.length = [140, 140, 25] :=
  (c2_stream_chunks (String.mk (List.replicate 305 'a')) ⟨"", ""⟩).2.2.1
    (by rw [show (String.mk (List.replicate 305 'a')).length = (List.replicate 305 'a').length from rfl,
          List.length_replicate])

/-- Looking up a freshly appended empty entry. -/
theorem lookupTurns_append_self (st : Store) (sid : String)
    (h : lookupTurns st sid = none) :
    lookupTurns (st ++ [(sid, [])]) sid = some [] := by
  induction st with
  | nil => simp [lookupTurns]
  | cons p rest ih =>
    obtain ⟨key, v⟩ := p
    by_cases hk : key = sid
    · simp [lookupTurns, hk] at h
    · simp only [lookupTurns, List.cons_append, if_neg hk] at h ⊢
      exact ih h

/-- Appending a fresh entry does not change other lookups. -/
theorem lookupTurns_append_ne (st : Store) (sid sid' : String) (hne : sid' ≠ sid) :
    lookupTurns (st ++ [(sid, [])]) sid' = lookupTurns st sid' := by
  induction st with
  | nil =>
    simp only [List.nil_append, lookupTurns]
    rw [if_neg (fun hh => hne hh.symm)]
  | cons p rest ih =>
    obtain ⟨key, v⟩ := p
    by_cases hk : key = sid'
    · simp [lookupTurns, hk]
    · simp only [lookupTurns, List.cons_append, if_neg hk]
      exact ih

/-- Replacing a present binding is observable at its key. -/
theorem lookupTurns_storeSet_self (st : Store) (sid : String) (h hv : List Turn)
    (hl : lookupTurns st sid = some hv) :
    lookupTurns (storeSet st sid h) sid = some h := by
  induction st with
  | nil => simp [lookupTurns] at hl
  | cons p rest ih =>
    obtain ⟨key, v⟩ := p
    by_cases hk : key = sid
    · simp [lookupTurns, storeSet, hk]
    · simp only [lookupTurns, if_neg hk] at hl
      simp only [storeSet, if_neg hk, lookupTurns]
      exact ih hl

/-- Replacing a binding does not change other lookups. -/
theorem lookupTurns_storeSet_ne (st : Store) (sid sid' : String) (h : List Turn)
    (hne : sid' ≠ sid) :
    lookupTurns (storeSet st sid h) sid' = lookupTurns st sid' := by
  induction st with
  | nil => simp [storeSet]
  | cons p rest ih =>
    obtain ⟨key, v⟩ := p
    by_cases hk : key = sid
    · subst hk
      simp only [storeSet, if_pos rfl, lookupTurns]
      rw [if_neg (fun hh => hne hh.symm), if_neg (fun hh => hne hh.symm)]
      exact ih
    · by_cases hk' : key = sid'
      · simp only [storeSet, if_neg hk, lookupTurns]
        rw [if_pos hk', if_pos hk']
      · simp only [storeSet, if_neg hk, lookupTurns]
        rw [if_neg hk', if_neg hk']
        exact ih

/-- The appended session holds exactly its previous history extended by the
new turn (with the deque eviction applied). -/
theorem lookupTurns_appendTurn_self (st : Store) (sid q a : String) :
    lookupTurns (appendTurn st sid q a) sid
      = some (dequeAppend ((lookupTurns st sid).getD []) ⟨q, a⟩) := by
  unfold appendTurn getHistory
  cases hl : lookupTurns st sid with
  | some hv =>
    simpa using lookupTurns_storeSet_self st sid _ hv hl
  | none =>
    simpa using lookupTurns_storeSet_self (st ++ [(sid, [])]) sid _ []
      (lookupTurns_append_self st sid hl)

/-- Appending a turn to one session leaves every other session unchanged. -/
theorem lookupTurns_appendTurn_ne (st : Store) (sid sid' q a : String)
    (hne : sid' ≠ sid) :
    lookupTurns (appendTurn st sid q a) sid' = lookupTurns st sid' := by
  unfold appendTurn getHistory
  cases hl : lookupTurns st sid with
  | some hv => simpa using lookupTurns_storeSet_ne st sid sid' _ hne
  | none =>
    simp only
    rw [lookupTurns_storeSet_ne _ _ _ _ hne, lookupTurns_append_ne st sid sid' hne]

/-- A deque append never leaves more than the cap. -/
theorem dequeAppend_length_le (h : List Turn) (t : Turn) :
    (dequeAppend h t).length ≤ MAX_TURNS_PER_SESSION := by
  simp only [dequeAppend, List.length_drop, List.length_append, List.length_cons]
  omega

/-- Invariant: every stored turn sequence respects the cap. -/
def InvStore (st : Store) : Prop :=
  ∀ sid h, lookupTurns st sid = some h → h.length ≤ MAX_TURNS_PER_SESSION

/-- The empty store satisfies the cap invariant. -/
theorem invStore_nil : InvStore [] := by
  intro sid h hl
  simp [lookupTurns] at hl

/-- One `_store_turn` preserves the cap invariant. -/
theorem invStore_appendTurn (st : Store) (sid q a : String) (hI : InvStore st) :
    InvStore (appendTurn st sid q a) := by
  intro sid' h' hl
  by_cases hc : sid' = sid
  · subst hc
    rw [lookupTurns_appendTurn_self] at hl
    cases hl
    exact dequeAppend_length_le _ _
  · rw [lookupTurns_appendTurn_ne st sid sid' q a hc] at hl
    exact hI sid' h' hl

/-- Any sequence of `_store_turn` operations preserves the cap invariant. -/
theorem invStore_applyOps (ops : List (String × String × String)) :
    ∀ st : Store, InvStore st → InvStore (applyOps st ops) := by
  induction ops with
  | nil => intro st hI; exact hI
  | cons oper ops ih =>
    intro st hI
    exact ih _ (invStore_appendTurn st oper.1 oper.2.1 oper.2.2 hI)

/-- Folding deque appends over a bounded history keeps the trailing window. -/
theorem foldl_dequeAppend (ts : List Turn) :
    ∀ h : List Turn, h.length ≤ MAX_TURNS_PER_SESSION →
      ts.foldl dequeAppend h
        = (h ++ ts).drop (h.length + ts.length - MAX_TURNS_PER_SESSION) := by
  induction ts with
  | nil =>
    intro h hh
    simp only [List.foldl_nil, List.append_nil, List.length_nil]
    rw [show h.length + 0 - MAX_TURNS_PER_SESSION = 0 by omega, List.drop_zero]
  | cons t ts ih =>
    intro h hh
    simp only [List.foldl_cons]
    rw [ih (dequeAppend h t) (dequeAppend_length_le h t)]
    have hle : (h ++ [t]).length - MAX_TURNS_PER_SESSION ≤ (h ++ [t]).length :=
      Nat.sub_le _ _
    have hsplit : dequeAppend h t ++ ts
        = ((h ++ [t]) ++ ts).drop ((h ++ [t]).length - MAX_TURNS_PER_SESSION) := by
      rw [List.drop_append_of_le_length hle]
      rfl
    rw [hsplit, List.drop_drop]
    have h1 : (dequeAppend h t).length
        = (h ++ [t]).length - ((h ++ [t]).length - MAX_TURNS_PER_SESSION) := by
      simp only [dequeAppend, List.length_drop]
    rw [show (h ++ [t]) ++ ts = h ++ t :: ts by simp]
    congr 1
    simp only [List.length_append, List.length_cons, List.length_nil] at h1 ⊢
    omega

/-- Appending turns one by one to a present session composes the deque
appends. -/
theorem lookupTurns_appendAll (sid : String) (ts : List Turn) :
    ∀ (st : Store) (hv : List Turn), lookupTurns st sid = some hv →
      lookupTurns (appendAll st sid ts) sid = some (ts.foldl dequeAppend hv) := by
  induction ts with
  | nil => intro st hv hl; exact hl
  | cons t ts ih =>
    intro st hv hl
    have h1 : lookupTurns (appendTurn st sid t.q t.a) sid = some (dequeAppend hv t) := by
      rw [lookupTurns_appendTurn_self, hl]
      rfl
    simpa using ih (appendTurn st sid t.q t.a) (dequeAppend hv t) h1

/-- Appending a turn list to one session of the empty store keeps only the
trailing window of the list. -/
theorem appendAll_nil_store (sid : String) (ts : List Turn) (hts : ts ≠ []) :
    lookupTurns (appendAll [] sid ts) sid
      = some (ts.drop (ts.length - MAX_TURNS_PER_SESSION)) := by
  cases ts with
  | nil => exact absurd rfl hts
  | cons t ts =>
    have h0 : lookupTurns (appendTurn [] sid t.q t.a) sid = some [t] := by
      rw [lookupTurns_appendTurn_self]
      rfl
    have h1 := lookupTurns_appendAll sid ts (appendTurn [] sid t.q t.a) [t] h0
    have h2 : appendAll [] sid (t :: ts) = appendAll (appendTurn [] sid t.q t.a) sid ts := rfl
    rw [h2, h1]
    rw [show ([t] : List Turn) = [] ++ [t] from rfl,
      show ([] ++ [t] : List Turn) = dequeAppend [] t from rfl]
    rw [show (ts.foldl dequeAppend (dequeAppend [] t)) = (t :: ts).foldl dequeAppend [] from rfl]
    rw [foldl_dequeAppend (t :: ts) [] (by simp [MAX_TURNS_PER_SESSION])]
    simp

/--
C1. For every session identifier, the session's turn sequence never exceeds
80 turns after any sequence of `append_turn` operations, and when the cap is
reached the oldest turns are evicted first: appending 85 turns to one session
of the empty store leaves exactly 80 turns, the 5 oldest evicted, with the
remaining turns in original FIFO arrival order.
-/
theorem c1_session_cap (ops : List (String × String × String)) (sid : String)
    (h ts : List Turn) (hl : lookupTurns (applyOps [] ops) sid = some h) :
    h.length ≤ 80
    ∧ (ts.length = 85 →
        lookupTurns (appendAll [] sid ts) sid = some (ts.drop 5)
        ∧ (ts.drop 5).length = 80) := by
  constructor
  · exact invStore_applyOps ops [] invStore_nil sid h hl
  · intro hlen
    have hne : ts ≠ [] := by
      intro hc
      rw [hc] at hlen
      simp at hlen
    constructor
    · rw [appendAll_nil_store sid ts hne, hlen]
      rfl
    · rw [List.length_drop, hlen]

/-- Witness for C1: one stored turn, and 85 concrete turns collapsing to the
final 80. -/
theorem c1_session_cap_witness :
    ([⟨"q", "a"⟩] : List Turn).length ≤ 80
    ∧ ((List.replicate 85 (⟨"q", "a"⟩ : Turn)).length = 85 →
        lookupTurns (appendAll [] "s" (List.replicate 85 ⟨"q", "a"⟩)) "s"
          = some ((List.replicate 85 (⟨"q", "a"⟩ : Turn)).drop 5)
        ∧ ((List.replicate 85 (⟨"q", "a"⟩ : Turn)).drop 5).length = 80) :=
  c1_session_cap [("s", "q", "a")] "s" [⟨"q", "a"⟩] (List.replicate 85 ⟨"q", "a"⟩)
    (by decide)

/-- Reversing, taking and reversing again selects the trailing window. -/
theorem reverse_take_reverse {α : Type} (l : List α) (n : Nat) :
    (l.reverse.take n).reverse = l.drop (l.length - n) := by
  have h := @List.reverse_take α l.reverse n
  simpa using h

/-- Lookups survive extending the store on the right. -/
theorem lookupTurns_append_left (st l2 : Store) (sid : String) (h : List Turn)
    (hl : lookupTurns st sid = some h) :
    lookupTurns (st ++ l2) sid = some h := by
  induction st with
  | nil => simp [lookupTurns] at hl
  | cons p rest ih =>
    obtain ⟨key, v⟩ := p
    by_cases hk : key = sid
    · simpa [lookupTurns, hk] using hl
    · simp only [lookupTurns, if_neg hk] at hl
      simp only [List.cons_append, lookupTurns, if_neg hk]
      exact ih hl

/--
C5. For every session and every integer depth, `build_context` clamps depth
into [0, 10] (so depth 15 behaves identically to depth 10), returns the empty
string when the clamped depth is 0 or the session has no turns, and otherwise
returns the most recent `min(depth, history_length)` turns formatted as
question/answer text blocks, oldest-of-the-window first, joined with a
blank-line separator.
-/
theorem c5_build_context (st : Store) (sid : String) (d : Int) :
    buildContext st sid 15 = buildContext st sid 10
    ∧ (buildContext st sid 0).2 = ""
    ∧ (∀ hist, lookupTurns st sid = some hist → hist = [] → (buildContext st sid d).2 = "")
    ∧ (lookupTurns st sid = none → (buildContext st sid d).2 = "")
    ∧ (∀ hist, lookupTurns st sid = some hist → hist ≠ [] → 0 < clampInt d 0 10 →
        (buildContext st sid d).2
          = String.intercalate "\n\n"
              ((hist.reverse.take (min (clampInt d 0 10).toNat hist.length)).reverse.map
                (fun t => "User: " ++ t.q ++ "\nAssistant: " ++ t.a))) := by
  refine ⟨?_, ?_, ?_, ?_, ?_⟩
  · unfold buildContext
    rw [show clampInt 15 0 10 = clampInt 10 0 10 by decide]
  · simp [buildContext, clampInt]
  · intro hist hl hnil
    subst hnil
    unfold buildContext
    by_cases hd : clampInt d 0 10 ≤ 0
    · simp [hd]
    · simp [hd, getHistory, hl]
  · intro hl
    unfold buildContext
    by_cases hd : clampInt d 0 10 ≤ 0
    · simp [hd]
    · simp [hd, getHistory, hl]
  · intro hist hl hne hd
    have hd' : ¬clampInt d 0 10 ≤ 0 := by omega
    unfold buildContext
    simp only [if_neg hd', getHistory, hl, if_neg hne]
    rw [reverse_take_reverse]
    have harith : hist.length - min (clampInt d 0 10).toNat hist.length
        = hist.length - (clampInt d 0 10).toNat := by
      omega
    rw [harith]

/-- Witness for C5 at a two-turn session queried with depth 1. -/
theorem c5_build_context_witness :
    (buildContext [("s", [⟨"q1", "a1"⟩, ⟨"q2", "a2"⟩])] "s" 1).2
      = String.intercalate "\n\n"
          ((([⟨"q1", "a1"⟩, ⟨"q2", "a2"⟩] : List Turn).reverse.take
              (min (clampInt 1 0 10).toNat
                ([⟨"q1", "a1"⟩, ⟨"q2", "a2"⟩] : List Turn).length)).reverse.map
            (fun t => "User: " ++ t.q ++ "\nAssistant: " ++ t.a)) :=
  (c5_build_context [("s", [⟨"q1", "a1"⟩, ⟨"q2", "a2"⟩])] "s" 1).2.2.2.2
    [⟨"q1", "a1"⟩, ⟨"q2", "a2"⟩] (by decide) (by decide) (by decide)

/--
C6 counterexample. Invoking `build_context` for a session identifier not yet
present in the store with a positive depth mutates the store: the session id
is lazily inserted with an empty turn sequence, so the store is not left
unchanged.
-/
theorem c6_counterexample :
    (buildContext [] "s" 1).1 = [("s", [])]
    ∧ ([("s", [])] : Store) ≠ ([] : Store) := by
  constructor
  · rfl
  · simp

/--
C6 (amended). `build_context` never changes any existing session's turn
sequence and never appends or removes turns: every binding present before the
call is looked up unchanged afterwards, and the store is either returned
verbatim or extended with a single fresh empty entry for the queried session
id; when the queried session already exists, or the clamped depth is 0, the
store is returned verbatim.
-/
theorem c6_build_context_frame (st : Store) (sid : String) (d : Int) :
    ((buildContext st sid d).1 = st ∨ (buildContext st sid d).1 = st ++ [(sid, [])])
    ∧ (∀ sid' h, lookupTurns st sid' = some h →
        lookupTurns (buildContext st sid d).1 sid' = some h)
    ∧ ((lookupTurns st sid).isSome → (buildContext st sid d).1 = st)
    ∧ (clampInt d 0 10 ≤ 0 → (buildContext st sid d).1 = st) := by
  have hshape : (buildContext st sid d).1 = st
      ∨ (buildContext st sid d).1 = st ++ [(sid, [])] := by
    unfold buildContext
    by_cases hd : clampInt d 0 10 ≤ 0
    · simp [hd]
    · cases hl : lookupTurns st sid with
      | some hv =>
        by_cases hv0 : hv = []
        · simp [hd, getHistory, hl, hv0]
        · simp [hd, getHistory, hl, hv0]
      | none => simp [hd, getHistory, hl]
  refine ⟨hshape, ?_, ?_, ?_⟩
  · intro sid' h hl
    cases hshape with
    | inl heq => rw [heq]; exact hl
    | inr heq => rw [heq]; exact lookupTurns_append_left st [(sid, [])] sid' h hl
  · intro hsome
    obtain ⟨hv, hl⟩ := Option.isSome_iff_exists.mp hsome
    unfold buildContext
    by_cases hd : clampInt d 0 10 ≤ 0
    · simp [hd]
    · by_cases hv0 : hv = []
      · simp [hd, getHistory, hl, hv0]
      · simp [hd, getHistory, hl, hv0]
  · intro hd
    unfold buildContext
    simp [hd]

/-- Witness for C6 (amended): an existing binding survives a `build_context`
call for a different, fresh session id. -/
theorem c6_build_context_frame_witness :
    lookupTurns (buildContext [("a", [⟨"q1", "a1"⟩])] "s" 3).1 "a"
      = some [⟨"q1", "a1"⟩] :=
  (c6_build_context_frame [("a", [⟨"q1", "a1"⟩])] "s" 3).2.1 "a" [⟨"q1", "a1"⟩]
    (by decide)

/-- An oracle with no retrieval results and a fixed empty answer, used to
instantiate the endpoint theorems at concrete inputs. -/
def trivialOracle : Oracle :=
  ⟨fun _ _ => [], fun _ _ _ => Except.ok ""⟩

/--
C3. For every agent identifier outside the set {thesis, python, reviewer},
a query fails with the agent client error, with no session-store mutation and
no retrieval or generation call performed, on both endpoints, and
independently of the index state (the agent check is the first step).
-/
theorem c3_unknown_agent (o : Oracle) (st : Store) (b : Bool) (req : AskRequest)
    (h1 : req.agent ≠ "thesis") (h2 : req.agent ≠ "python") (h3 : req.agent ≠ "reviewer") :
    api_ask o st b req = (ApiResult.err agentErrMsg, st, [])
    ∧ api_ask_stream o st b req = (Except.error agentErrMsg, st, []) := by
  have hk : knownAgent req.agent = false := by
    simp [knownAgent, h1, h2, h3]
  constructor
  · simp [api_ask, hk]
  · simp [api_ask_stream, hk]

/-- Witness for C3: the identifier "writer" (not a wire identifier) is
rejected by both endpoints with no effects. -/
theorem c3_unknown_agent_witness :
    api_ask trivialOracle [] true ⟨"writer", "hi", 4, none⟩
        = (ApiResult.err agentErrMsg, [], [])
    ∧ api_ask_stream trivialOracle [] true ⟨"writer", "hi", 4, none⟩
        = (Except.error agentErrMsg, [], []) :=
  c3_unknown_agent trivialOracle [] true ⟨"writer", "hi", 4, none⟩
    (by decide) (by decide) (by decide)

/-- A stream carries either exactly one `done` and no `error` event, or
exactly one `error` and no `done` event. -/
theorem streamEvents_excl (res : Except String AskOut) :
    (streamEvents res).countP isDone = 1 ∧ (streamEvents res).countP isErrorEvent = 0
    ∨ (streamEvents res).countP isDone = 0 ∧ (streamEvents res).countP isErrorEvent = 1 := by
  cases res with
  | error e =>
    right
    constructor <;> simp [streamEvents, isDone, isErrorEvent]
  | ok out => exact Or.inl (streamEvents_ok_counts out)

/-- For a known agent, every event stream the streaming endpoint returns is
`streamEvents` of some pipeline outcome. -/
theorem api_ask_stream_events (o : Oracle) (st : Store) (req : AskRequest)
    (hagent : knownAgent req.agent = true) (b : Bool) :
    ∃ res', (api_ask_stream o st b req).1 = Except.ok (streamEvents res') := by
  cases b with
  | false =>
    refine ⟨Except.error indexNotBuiltMsg, ?_⟩
    simp [api_ask_stream, hagent, streamEvents]
  | true =>
    unfold api_ask_stream
    rw [hagent]
    simp only [Bool.not_true, Bool.false_eq_true, if_false, Bool.not_false, if_true]
    rcases h : askM o req.agent (contextQuestion st req).2 req.k with ⟨effs0, r0⟩
    cases r0 with
    | error e0 => exact ⟨Except.error e0, rfl⟩
    | ok out => exact ⟨Except.ok out, rfl⟩

/--
C4. If the query pipeline raises an error before completion, the streaming
emitter yields a single `error` event and terminates with no `done` event
(`error` and `done` are mutually exclusive in every stream the endpoint can
return); in particular, when the persisted index does not exist or is empty,
both endpoints return the descriptive index-not-built failure without
attempting retrieval and without touching the session store.
-/
theorem c4_error_handling (o : Oracle) (st : Store) (req : AskRequest) (e : String)
    (res : Except String AskOut) (hagent : knownAgent req.agent = true) :
    streamEvents (Except.error e) = [Event.error e]
    ∧ ((streamEvents res).countP isDone = 1 ∧ (streamEvents res).countP isErrorEvent = 0
        ∨ (streamEvents res).countP isDone = 0 ∧ (streamEvents res).countP isErrorEvent = 1)
    ∧ (∀ b, ∃ res', (api_ask_stream o st b req).1 = Except.ok (streamEvents res'))
    ∧ api_ask_stream o st false req = (Except.ok [Event.error indexNotBuiltMsg], st, [])
    ∧ api_ask o st false req = (ApiResult.err indexNotBuiltMsg, st, []) := by
  refine ⟨rfl, streamEvents_excl res, api_ask_stream_events o st req hagent, ?_, ?_⟩
  · simp [api_ask_stream, hagent]
  · simp [api_ask, hagent]

/-- Witness for C4 at the thesis agent and a missing index. -/
theorem c4_error_handling_witness :
    api_ask trivialOracle [] false ⟨"thesis", "hi", 4, none⟩
      = (ApiResult.err indexNotBuiltMsg, [], []) :=
  (c4_error_handling trivialOracle [] ⟨"thesis", "hi", 4, none⟩ "boom"
    (Except.error "boom") (by decide)).2.2.2.2

/--
C7. For every document path, the scope tag is derived deterministically from
the first path segment of the path relative to the corpus root: `internal`
when that segment lower-cases to "internal", `public` when it lower-cases to
"public", else `unknown`; a path-resolution failure degrades to `unknown`
rather than failing.
-/
theorem c7_scope_tag (seg : String) (rest : List String) :
    scopeOf none = "unknown"
    ∧ (pyLower seg = "internal" → scopeOf (some (seg :: rest)) = "internal")
    ∧ (pyLower seg = "public" → scopeOf (some (seg :: rest)) = "public")
    ∧ (pyLower seg ≠ "internal" → pyLower seg ≠ "public" →
        scopeOf (some (seg :: rest)) = "unknown")
    ∧ scopePath "internal/x.md" = "internal"
    ∧ scopePath "public/x.md" = "public"
    ∧ scopePath "x.md" = "unknown"
    ∧ scopePath "INTERNAL/x.md" = "internal" := by
  refine ⟨rfl, ?_, ?_, ?_, by decide, by decide, by decide, by decide⟩
  · intro h
    simp [scopeOf, scopeFromParts, h]
  · intro h
    have hne : pyLower seg ≠ "internal" := by
      rw [h]
      decide
    simp [scopeOf, scopeFromParts, h, hne]
  · intro h1 h2
    simp [scopeOf, scopeFromParts, h1, h2]

/-- Witness for C7: the upper-case first segment is tagged internal. -/
theorem c7_scope_tag_witness :
    scopeOf (some ("INTERNAL" :: ["x.md"])) = "internal" :=
  (c7_scope_tag "INTERNAL" ["x.md"]).2.1 (by decide)

/-- A truthy optional string: present and non-empty. -/
def truthy (a : Option String) : Prop :=
  ∃ t, a = some t ∧ t ≠ ""

/-- Left-biased truthiness of the Python `or`. -/
theorem truthy_pyOr_left (a b : Option String) (h : truthy a) : truthy (pyOr a b) := by
  obtain ⟨t, rfl, ht⟩ := h
  exact ⟨t, by simp [pyOr, ht], ht⟩

/-- A truthy right operand survives the Python `or`. -/
theorem truthy_pyOr_right (a b : Option String) (h : truthy b) : truthy (pyOr a b) := by
  cases a with
  | none => simpa [pyOr] using h
  | some s =>
    by_cases hs : s = ""
    · simpa [pyOr, hs] using h
    · exact ⟨s, by simp [pyOr, hs], hs⟩

/--
C9 counterexample. A document whose loader populated none of the candidate
metadata keys keeps an unset `source` after normalization, and a document
whose only candidate value is the empty string keeps an empty `source`, so
not every chunk carries a non-empty `source` field.
-/
theorem c9_counterexample :
    (normalizeSource ⟨none, none, none, none⟩).source = none
    ∧ (normalizeSource ⟨some "", none, none, none⟩).source = some "" := by
  constructor <;> rfl

/--
C9 (amended). Every chunk whose document's loader populated at least one of
the candidate metadata keys (source, file_path, path, filename) with a
non-empty value carries a non-empty `source` after normalization; when no
candidate holds a non-empty value, `source` stays unset (or empty) and is
rendered as "unknown" at citation time.
-/
theorem c9_source_normalization (m : DocMeta) (s : String) (hs : s ≠ "")
    (hc : m.source = some s ∨ m.file_path = some s ∨ m.path = some s
      ∨ m.filename = some s) :
    ∃ t, (normalizeSource m).source = some t ∧ t ≠ "" := by
  have hch : truthy (pyOr m.source (pyOr m.file_path (pyOr m.path m.filename))) := by
    rcases hc with h | h | h | h
    · exact truthy_pyOr_left _ _ ⟨s, h, hs⟩
    · exact truthy_pyOr_right _ _ (truthy_pyOr_left _ _ ⟨s, h, hs⟩)
    · exact truthy_pyOr_right _ _ (truthy_pyOr_right _ _ (truthy_pyOr_left _ _ ⟨s, h, hs⟩))
    · exact truthy_pyOr_right _ _ (truthy_pyOr_right _ _ (truthy_pyOr_right _ _ ⟨s, h, hs⟩))
  obtain ⟨t, hchain, ht⟩ := hch
  refine ⟨t, ?_, ht⟩
  unfold normalizeSource
  rw [hchain]

/-- Witness for C9 (amended): a document with only `file_path` populated gets
a non-empty source. -/
theorem c9_source_normalization_witness :
    ∃ t, (normalizeSource ⟨none, some "kb/doc.md", none, none⟩).source = some t
      ∧ t ≠ "" :=
  c9_source_normalization ⟨none, some "kb/doc.md", none, none⟩ "kb/doc.md"
    (by decide) (Or.inr (Or.inl rfl))

/-- The selection of `format_sources` is a subsequence of its input (order is
preserved and nothing new appears). -/
theorem selectSources_sublist (ds : List Doc) :
    ∀ seen, List.Sublist (selectSources ds seen) ds := by
  induction ds with
  | nil =>
    intro seen
    simp [selectSources]
  | cons d rest ih =>
    intro seen
    by_cases h : sourceKey d ∈ seen
    · simp only [selectSources, if_pos h]
      exact List.Sublist.cons d (ih seen)
    · simp only [selectSources, if_neg h]
      exact List.Sublist.cons₂ d (ih _)

/-- Every input key is either already seen or represented in the selection. -/
theorem selectSources_complete (ds : List Doc) :
    ∀ seen d, d ∈ ds →
      sourceKey d ∈ seen ∨ sourceKey d ∈ (selectSources ds seen).map sourceKey := by
  induction ds with
  | nil =>
    intro seen d hd
    cases hd
  | cons d0 rest ih =>
    intro seen d hd
    by_cases h : sourceKey d0 ∈ seen
    · simp only [selectSources, if_pos h]
      rcases List.mem_cons.mp hd with rfl | hmem
      · exact Or.inl h
      · exact ih seen d hmem
    · simp only [selectSources, if_neg h, List.map_cons]
      rcases List.mem_cons.mp hd with rfl | hmem
      · exact Or.inr (List.mem_cons_self _ _)
      · rcases ih (sourceKey d0 :: seen) d hmem with hin | hin
        · rcases List.mem_cons.mp hin with heq | hin2
          · exact Or.inr (by rw [heq]; exact List.mem_cons_self _ _)
          · exact Or.inl hin2
        · exact Or.inr (List.mem_cons_of_mem _ hin)

/-- Two leading chunks with equal keys collapse to the first. -/
theorem selectSources_collapse (d1 d2 : Doc) (ds : List Doc)
    (hkey : sourceKey d1 = sourceKey d2) :
    selectSources (d1 :: d2 :: ds) [] = selectSources (d1 :: ds) [] := by
  have h1 : selectSources (d1 :: d2 :: ds) []
      = d1 :: selectSources (d2 :: ds) [sourceKey d1] := by
    simp only [selectSources]
    rw [if_neg (List.not_mem_nil _)]
  have h2 : selectSources (d2 :: ds) [sourceKey d1] = selectSources ds [sourceKey d1] := by
    simp only [selectSources]
    rw [if_pos (List.mem_singleton.mpr hkey.symm)]
  have h3 : selectSources (d1 :: ds) [] = d1 :: selectSources ds [sourceKey d1] := by
    simp only [selectSources]
    rw [if_neg (List.not_mem_nil _)]
  rw [h1, h2, h3]

/--
C8. For every list of retrieved chunks, the source listing deduplicates
citations by the composite key (source, page) when a page is present and by
source alone otherwise (chunks agreeing on both collapse to the first),
preserves first-seen order (the selection is a subsequence of the input in
which every input key is represented), renders the page number 1-based
(page 2 renders as "(p.3)"), and truncates each content snippet to 220
characters with an ellipsis marker appended exactly when truncation
occurred.
-/
theorem c8_format_sources (d1 d2 : Doc) (ds : List Doc) (content : String)
    (hsrc : d1.source = d2.source) (hpage : d1.page = d2.page) :
    sourceKey d1 = sourceKey d2
    ∧ formatSources (d1 :: d2 :: ds) 220 = formatSources (d1 :: ds) 220
    ∧ List.Sublist (selectSources ds []) ds
    ∧ (∀ d, d ∈ ds → sourceKey d ∈ (selectSources ds []).map sourceKey)
    ∧ sourceLine ⟨some "doc.pdf", some 2, "sample text"⟩ 220
        = "- doc.pdf (p.3): sample text"
    ∧ ((cleanSnippet content).length ≤ 220 → snippetOf content 220 = cleanSnippet content)
    ∧ (220 < (cleanSnippet content).length →
        snippetOf content 220 = pyTake (cleanSnippet content) 220 ++ "…"
        ∧ (snippetOf content 220).length = 221) := by
  have hkey : sourceKey d1 = sourceKey d2 := by
    simp [sourceKey, hsrc, hpage]
  refine ⟨hkey, ?_, selectSources_sublist ds [], ?_, by decide, ?_, ?_⟩
  · unfold formatSources
    rw [selectSources_collapse d1 d2 ds hkey]
  · intro d hd
    rcases selectSources_complete ds [] d hd with hin | hin
    · cases hin
    · exact hin
  · intro hle
    simp [snippetOf, Nat.not_lt.mpr hle]
  · intro hgt
    constructor
    · simp [snippetOf, hgt]
    · have htake : (pyTake (cleanSnippet content) 220).length = 220 := by
        have hd : 220 < (cleanSnippet content).data.length := hgt
        show ((cleanSnippet content).data.take 220).length = 220
        rw [List.length_take]
        omega
      simp only [snippetOf, if_pos hgt]
      rw [String.length_append, htake]
      decide

/-- Witness for C8: two chunks sharing (source, page) collapse to one
citation line. -/
theorem c8_format_sources_witness :
    formatSources
        [⟨some "doc.pdf", some 2, "alpha"⟩, ⟨some "doc.pdf", some 2, "beta"⟩] 220
      = formatSources [⟨some "doc.pdf", some 2, "alpha"⟩] 220 :=
  (c8_format_sources ⟨some "doc.pdf", some 2, "alpha"⟩ ⟨some "doc.pdf", some 2, "beta"⟩
    [] "x" rfl rfl).2.1

/--
C10. The citation deduplication key is not injective across source/page
identities: the chunk with source "doc" and page 2 and the chunk with the
literal source "doc:2" and no page have distinct metadata yet the same key,
so the second chunk's citation line is dropped from the source listing.
-/
theorem c10_key_collision :
    sourceKey ⟨some "doc", some 2, "alpha"⟩ = sourceKey ⟨some "doc:2", none, "beta"⟩
    ∧ (some "doc" : Option String) ≠ some "doc:2"
    ∧ (some (2 : Int) : Option Int) ≠ none
    ∧ formatSources [⟨some "doc", some 2, "alpha"⟩, ⟨some "doc:2", none, "beta"⟩] 220
        = sourceLine ⟨some "doc", some 2, "alpha"⟩ 220
    ∧ formatSources [⟨some "doc", some 2, "alpha"⟩, ⟨some "doc:2", none, "beta"⟩] 220
        = "- doc (p.3): alpha" := by
  refine ⟨by decide, by decide, by decide, by decide, by decide⟩

end GRA
